import Mathlib

/-!
Shallow embedding of the `project_diff` panel of `crates/git_ui/src/project_diff.rs`
and of `SvgRenderer::render` of `crates/gpui2/src/svg_renderer.rs`.

Pure data stands in for the entities of the host application: a repository is its
status list together with its repo-path-to-project-path mapping, the multibuffer is
the list of per-buffer excerpt entries it holds, and the fallible collaborator
methods (`Project::open_buffer`, `Project::open_unstaged_changes`, the asset source,
the SVG library) are fields of an explicit environment record, so that the
coordination logic of the source file is transcribed as total functions on these
states.
-/

namespace ProjectDiffModel

/-- A project path: worktree id together with the path inside the worktree. -/
structure ProjectPath where
  worktree_id : Nat
  path : String
deriving DecidableEq, Repr

/-- A file status, abstracted to what `buffers_to_load` consults: whether it has
changes (`FileStatus::has_changes`). -/
structure FileStatus where
  has_changes : Bool
deriving DecidableEq, Repr

/-- One entry of `Repository::status()`: a repo-relative path and its status. -/
structure StatusEntry where
  repo_path : String
  status : FileStatus
deriving DecidableEq, Repr

/-- The active repository as seen by `buffers_to_load`: its status entries and the
partial map behind `repo_path_to_project_path`. -/
structure Repository where
  status : List StatusEntry
  path_map : List (String × ProjectPath)
deriving DecidableEq, Repr

/-- `RepoPathDescriptor::repo_path_to_project_path`: look the repo path up in the
worktree mapping. -/
def Repository.repo_path_to_project_path (repo : Repository) (rp : String) :
    Option ProjectPath :=
  repo.path_map.lookup rp

/-- `GitState`, abstracted to what the panel consults: the active repository. -/
structure GitState where
  active_repository : Option Repository
deriving DecidableEq, Repr

/-- A text anchor. `Anchor::MIN` is before all text positions and `Anchor::MAX`
after all of them. -/
inductive Anchor where
  | min
  | text (offset : Nat)
  | max
deriving DecidableEq, Repr

/-- The order on anchors. -/
def Anchor.le : Anchor → Anchor → Bool
  | .min, _ => true
  | _, .max => true
  | .text a, .text b => a ≤ b
  | _, _ => false

/-- Two anchor ranges intersect when each one starts no later than the other ends. -/
def rangesIntersect (r1 r2 : Anchor × Anchor) : Bool :=
  Anchor.le r1.1 r2.2 && Anchor.le r2.1 r1.2

/-- A diff hunk, abstracted to the field `register_buffer` reads: its buffer range. -/
structure DiffHunk where
  buffer_range : Anchor × Anchor
deriving DecidableEq, Repr

/-- `BufferChangeSet`, abstracted to its diff hunks. -/
structure BufferChangeSet where
  hunks : List DiffHunk
deriving DecidableEq, Repr

/-- `BufferChangeSet::diff_hunks_intersecting_range`: the hunks whose buffer range
intersects the query range. -/
def BufferChangeSet.diff_hunks_intersecting_range (cs : BufferChangeSet)
    (range : Anchor × Anchor) : List DiffHunk :=
  cs.hunks.filter (fun h => rangesIntersect h.buffer_range range)

/-- A buffer entity: an identity and the optional file it holds (`Buffer::file`,
already projected to the project path that `buffers_to_load` builds from it). -/
structure Buffer where
  id : Nat
  file : Option ProjectPath
deriving DecidableEq, Repr

/-- The pair produced by a successful load task. -/
structure DiffBuffer where
  buffer : Buffer
  change_set : BufferChangeSet
deriving DecidableEq, Repr

/-- The excerpts a multibuffer holds for one buffer: the anchor ranges and the
context-line count they were expanded by. -/
structure Excerpts where
  ranges : List (Anchor × Anchor)
  context : Nat
deriving DecidableEq, Repr

/-- The multibuffer: its excerpt entries, one per contained buffer, plus the dirty
and conflict flags its `is_dirty` and `has_conflict` queries report. -/
structure MultiBuffer where
  excerpts : List (Buffer × Excerpts)
  dirty : Bool
  conflict : Bool
deriving DecidableEq, Repr

/-- `MultiBuffer::clear`: drop every excerpt. -/
def MultiBuffer.clear (mb : MultiBuffer) : MultiBuffer :=
  { mb with excerpts := [] }

/-- `MultiBuffer::all_buffers`: the buffers that currently have excerpt entries. -/
def MultiBuffer.all_buffers (mb : MultiBuffer) : List Buffer :=
  mb.excerpts.map (·.1)

/-- `MultiBuffer::remove_excerpts_for_buffer`: drop the entries of one buffer. -/
def MultiBuffer.remove_excerpts_for_buffer (mb : MultiBuffer) (b : Buffer) :
    MultiBuffer :=
  { mb with excerpts := mb.excerpts.filter (fun e => e.1 != b) }

/-- `MultiBuffer::set_excerpts_for_buffer`: replace the entries of one buffer by a
single entry holding the given ranges and context. -/
def MultiBuffer.set_excerpts_for_buffer (mb : MultiBuffer) (b : Buffer)
    (ranges : List (Anchor × Anchor)) (context : Nat) : MultiBuffer :=
  { mb with excerpts := mb.excerpts.filter (fun e => e.1 != b) ++ [(b, ⟨ranges, context⟩)] }

/-- The excerpts the multibuffer currently holds for a buffer. -/
def MultiBuffer.excerpts_for (mb : MultiBuffer) (b : Buffer) : Option Excerpts :=
  (mb.excerpts.find? (fun e => e.1 == b)).map (·.2)

/-- The project paths of the buffers shown in the multibuffer. -/
def MultiBuffer.shown_paths (mb : MultiBuffer) : List ProjectPath :=
  mb.all_buffers.filterMap Buffer.file

/-- `editor::DEFAULT_MULTIBUFFER_CONTEXT`, the default number of context lines. -/
def DEFAULT_MULTIBUFFER_CONTEXT : Nat := 2

/-- The fallible collaborator methods the load tasks call, as an environment:
`Project::open_buffer` and `Project::open_unstaged_changes`. -/
structure ProjectEnv where
  open_buffer : ProjectPath → Except String Buffer
  open_unstaged_changes : Buffer → Except String BufferChangeSet

/-- A scheduled buffer-load task, identified by the project path it was spawned
for (the async block of `buffers_to_load` captures exactly that request). -/
structure LoadTask where
  project_path : ProjectPath
deriving DecidableEq, Repr

/-- Run one load task: await `open_buffer`, then `open_unstaged_changes` on the
loaded buffer, and produce the `DiffBuffer` pair; either failure aborts the task. -/
def LoadTask.run (t : LoadTask) (env : ProjectEnv) : Except String DiffBuffer := do
  let buffer ← env.open_buffer t.project_path
  let change_set ← env.open_unstaged_changes buffer
  pure { buffer := buffer, change_set := change_set }

/-- The watch channel behind `update_needed`: writing bumps the version, and the
receiver observes whenever the version moved past what it has seen. -/
structure WatchChannel where
  version : Nat
deriving DecidableEq, Repr

/-- Writing `*channel.borrow_mut() = ()`: a new observable version. -/
def WatchChannel.send (c : WatchChannel) : WatchChannel :=
  ⟨c.version + 1⟩

/-- The receiver end has a new signal to observe when the channel version is ahead
of what the receiver has already seen. -/
def worker_observes (seen : Nat) (c : WatchChannel) : Bool :=
  decide (seen < c.version)

/-- The events of `project::git::Event`. -/
inductive GitEvent where
  | RepositoriesUpdated
deriving DecidableEq, Repr

/-- The subscription handler installed by `ProjectDiff::new`: on
`RepositoriesUpdated` it writes to the `update_needed` channel. -/
def git_state_subscription_handler (e : GitEvent) (c : WatchChannel) : WatchChannel :=
  match e with
  | .RepositoriesUpdated => c.send

/-- A freshly created watch channel, before any write. -/
def initial_channel : WatchChannel := ⟨0⟩

/-- The `update_needed` sender right after `ProjectDiff::new` returns: the
constructor performs exactly one kick-off write on the fresh channel. -/
def new_update_needed : WatchChannel :=
  initial_channel.send

/-- The editor entity owned by the panel, abstracted to an opaque payload; the
operations the panel delegates to it are fields of `EditorOps`. -/
structure EditorState where
  data : Nat
deriving DecidableEq, Repr

/-- The editor operations the `Item` implementation delegates to, taken as an
arbitrary environment so the delegation theorems hold for every editor behaviour:
`deactivated`, `navigate`, `save`, `reload` and `breadcrumbs`. -/
structure EditorOps where
  deactivated : EditorState → EditorState
  navigate : Nat → EditorState → EditorState × Bool
  save : Bool → Nat → EditorState → EditorState × Nat
  reload : Nat → EditorState → EditorState × Nat
  breadcrumbs : Nat → EditorState → Option (List String)

/-- The state of the `ProjectDiff` panel: the fields of the Rust struct, with the
entities replaced by their data models (the spawned worker task itself is the
transition function below rather than a field). -/
structure ProjectDiff where
  multibuffer : MultiBuffer
  buffers_to_show : List (ProjectPath × Buffer)
  editor : EditorState
  project : Nat
  git_state : GitState
  update_needed : WatchChannel
  git_state_subscription : Nat
deriving DecidableEq, Repr

/-- Erasing a key from the `loaded_buffers` map (`HashMap::remove`). -/
def assocErase (m : List (ProjectPath × Buffer)) (pp : ProjectPath) :
    List (ProjectPath × Buffer) :=
  m.filter (fun e => e.1 != pp)

/-- Collecting `all_buffers` into the `loaded_buffers` map keyed by project path:
buffers without a file are skipped, and inserting an existing key replaces. -/
def buildLoadedBuffers (buffers : List Buffer) : List (ProjectPath × Buffer) :=
  buffers.foldl
    (fun acc buffer =>
      match buffer.file with
      | none => acc
      | some pp => acc.filter (fun e => e.1 != pp) ++ [(pp, buffer)])
    []

/-- The project path a status entry contributes: its repo path mapped to a project
path, provided the status has changes. -/
def entry_path (repo : Repository) (e : StatusEntry) : Option ProjectPath :=
  if e.status.has_changes then repo.repo_path_to_project_path e.repo_path else none

/-- The body of the `for entry in repo.status()` loop of `buffers_to_load`:
entries without changes, and entries whose repo path has no project-path mapping,
are skipped; otherwise the path is removed from `loaded_buffers` and a load task
is scheduled. -/
def load_step (repo : Repository)
    (acc : List (ProjectPath × Buffer) × List LoadTask) (e : StatusEntry) :
    List (ProjectPath × Buffer) × List LoadTask :=
  if !e.status.has_changes then acc
  else
    match repo.repo_path_to_project_path e.repo_path with
    | none => acc
    | some pp => (assocErase acc.1 pp, acc.2 ++ [⟨pp⟩])

/-- The project paths of the status entries that have changes and map to a project
path, in status order. -/
def Repository.changed_paths (repo : Repository) : List ProjectPath :=
  repo.status.filterMap (entry_path repo)

/-- `ProjectDiff::buffers_to_load`. Without an active repository the multibuffer
is cleared and no task is scheduled. Otherwise the shown buffers are collected
into a map by project path, the status entries are traversed scheduling one load
task per changed-and-mapped entry while removing its path from the map, and the
excerpts of the leftover buffers are removed from the multibuffer. -/
def ProjectDiff.buffers_to_load (s : ProjectDiff) : ProjectDiff × List LoadTask :=
  match s.git_state.active_repository with
  | none => ({ s with multibuffer := s.multibuffer.clear }, [])
  | some repo =>
    let loaded_buffers := buildLoadedBuffers s.multibuffer.all_buffers
    let folded := repo.status.foldl (load_step repo) (loaded_buffers, [])
    let mb := folded.1.foldl (fun mb e => mb.remove_excerpts_for_buffer e.2) s.multibuffer
    ({ s with multibuffer := mb }, folded.2)

/-- `ProjectDiff::register_buffer`: collect the buffer ranges of the diff hunks of
the change set that intersect the full range `Anchor::MIN..Anchor::MAX`, and set
them as the buffer's excerpts with the default context. -/
def ProjectDiff.register_buffer (s : ProjectDiff) (db : DiffBuffer) : ProjectDiff :=
  let diff_hunk_ranges :=
    (db.change_set.diff_hunks_intersecting_range (Anchor.min, Anchor.max)).map
      (·.buffer_range)
  { s with
    multibuffer :=
      s.multibuffer.set_excerpts_for_buffer db.buffer diff_hunk_ranges
        DEFAULT_MULTIBUFFER_CONTEXT }

/-- The task-awaiting loop of one pass of `ProjectDiff::worker`: each task is
awaited in order; a successful one is registered, a failed one is logged and
skipped (`log_err`). -/
def ProjectDiff.run_tasks (env : ProjectEnv) (s : ProjectDiff)
    (tasks : List LoadTask) : ProjectDiff :=
  tasks.foldl
    (fun st t =>
      match t.run env with
      | .ok db => st.register_buffer db
      | .error _ => st)
    s

/-- One complete update pass of the worker: call `buffers_to_load`, then await and
register every returned load task. -/
def ProjectDiff.run_pass (env : ProjectEnv) (s : ProjectDiff) : ProjectDiff :=
  let folded := s.buffers_to_load
  ProjectDiff.run_tasks env folded.1 folded.2

/-- One pass of `ProjectDiff::worker` including its only error exit: updating the
panel entity fails exactly when the entity was dropped, and then the worker
returns the error; otherwise the pass runs and the worker continues. -/
def ProjectDiff.worker_pass (env : ProjectEnv) (alive : Bool) (s : ProjectDiff) :
    Except String ProjectDiff :=
  if alive then .ok (s.run_pass env) else .error "entity released"

/-- The colors a tab label can take. -/
inductive LabelColor where
  | default
  | muted
deriving DecidableEq, Repr

/-- `Item::is_dirty` for the panel: the multibuffer's `is_dirty`. -/
def ProjectDiff.is_dirty (s : ProjectDiff) : Bool :=
  s.multibuffer.dirty

/-- `Item::has_conflict` for the panel: the multibuffer's `has_conflict`. -/
def ProjectDiff.has_conflict (s : ProjectDiff) : Bool :=
  s.multibuffer.conflict

/-- `Item::can_save` for the panel. -/
def ProjectDiff.can_save (_ : ProjectDiff) : Bool :=
  true

/-- `Item::tab_tooltip_text` for the panel. -/
def ProjectDiff.tab_tooltip_text (_ : ProjectDiff) : Option String :=
  some "Project Diff"

/-- `Item::tab_content` for the panel: the label text and its color, which depends
only on whether the tab is selected. -/
def ProjectDiff.tab_content (_ : ProjectDiff) (selected : Bool) :
    String × LabelColor :=
  ("No changes", if selected then .default else .muted)

/-- `Item::deactivated` for the panel: delegate to the editor. -/
def ProjectDiff.deactivated (ops : EditorOps) (s : ProjectDiff) : ProjectDiff :=
  { s with editor := ops.deactivated s.editor }

/-- `Item::navigate` for the panel: delegate to the editor and return its answer. -/
def ProjectDiff.navigate (ops : EditorOps) (data : Nat) (s : ProjectDiff) :
    ProjectDiff × Bool :=
  let r := ops.navigate data s.editor
  ({ s with editor := r.1 }, r.2)

/-- `Item::save` for the panel: delegate to the editor and return its task. -/
def ProjectDiff.save (ops : EditorOps) (format : Bool) (project : Nat)
    (s : ProjectDiff) : ProjectDiff × Nat :=
  let r := ops.save format project s.editor
  ({ s with editor := r.1 }, r.2)

/-- `Item::reload` for the panel: delegate to the editor and return its task. -/
def ProjectDiff.reload (ops : EditorOps) (project : Nat) (s : ProjectDiff) :
    ProjectDiff × Nat :=
  let r := ops.reload project s.editor
  ({ s with editor := r.1 }, r.2)

/-- `Item::breadcrumbs` for the panel: delegate to the editor. -/
def ProjectDiff.breadcrumbs (ops : EditorOps) (theme : Nat) (s : ProjectDiff) :
    Option (List String) :=
  ops.breadcrumbs theme s.editor

/-- The fields of the panel state that the `Item` methods must not touch
(everything besides the editor entity they delegate to), plus the multibuffer. -/
def preserves_panel_fields (s t : ProjectDiff) : Prop :=
  t.project = s.project ∧ t.git_state = s.git_state
    ∧ t.buffers_to_show = s.buffers_to_show ∧ t.update_needed = s.update_needed
    ∧ t.git_state_subscription = s.git_state_subscription
    ∧ t.multibuffer = s.multibuffer

/-- A workspace item, abstracted to its identity and whether it is a
`ProjectDiff` item. -/
structure WsItem where
  id : Nat
  is_project_diff : Bool
deriving DecidableEq, Repr

/-- The workspace as `deploy` sees it: its items and the active item. -/
structure Workspace where
  items : List WsItem
  active_item : Option Nat
deriving DecidableEq, Repr

/-- `Workspace::item_of_type::<ProjectDiff>`: the first `ProjectDiff` item. -/
def Workspace.item_of_type_project_diff (w : Workspace) : Option WsItem :=
  w.items.find? (·.is_project_diff)

/-- `Workspace::activate_item`: make the given item active. -/
def Workspace.activate_item (w : Workspace) (it : WsItem) : Workspace :=
  { w with active_item := some it.id }

/-- `Workspace::add_item_to_active_pane` with `activate = true`: append the item
and make it active. -/
def Workspace.add_item_to_active_pane (w : Workspace) (it : WsItem) : Workspace :=
  { w with items := w.items ++ [it], active_item := some it.id }

/-- `ProjectDiff::deploy`: activate the existing `ProjectDiff` item when there is
one, otherwise construct a new panel (with a fresh entity id) and add it to the
active pane. -/
def Workspace.deploy (w : Workspace) (fresh_id : Nat) : Workspace :=
  match w.item_of_type_project_diff with
  | some existing => w.activate_item existing
  | none => w.add_item_to_active_pane ⟨fresh_id, true⟩

/-- The number of `ProjectDiff` items in the workspace. -/
def Workspace.project_diff_count (w : Workspace) : Nat :=
  (w.items.filter (·.is_project_diff)).length

/-- Concrete project path used to exercise the model. -/
def pp1 : ProjectPath := ⟨1, "a.txt"⟩

/-- A second concrete project path. -/
def pp2 : ProjectPath := ⟨1, "b.txt"⟩

/-- The buffer the project serves for `pp1`. -/
def buf1 : Buffer := ⟨1, some pp1⟩

/-- A buffer for `pp2`, shown before the repository state changed. -/
def buf2 : Buffer := ⟨2, some pp2⟩

/-- A one-hunk change set. -/
def cs1 : BufferChangeSet := ⟨[⟨(Anchor.text 0, Anchor.text 1)⟩]⟩

/-- A concrete project environment: only `pp1` can be opened. -/
def env0 : ProjectEnv where
  open_buffer := fun pp => if pp = pp1 then .ok buf1 else .error "no such file"
  open_unstaged_changes := fun _ => .ok cs1

/-- A concrete repository: `a.txt` changed and mapped, `c.txt` unchanged, and
`d.txt` changed but with no project-path mapping. -/
def repo0 : Repository :=
  ⟨[⟨"a.txt", ⟨true⟩⟩, ⟨"c.txt", ⟨false⟩⟩, ⟨"d.txt", ⟨true⟩⟩], [("a.txt", pp1)]⟩

/-- A concrete multibuffer currently showing `buf2`. -/
def mb0 : MultiBuffer := ⟨[(buf2, ⟨[], DEFAULT_MULTIBUFFER_CONTEXT⟩)], false, false⟩

/-- A concrete panel state whose git state has `repo0` active. -/
def sDiff0 : ProjectDiff :=
  ⟨mb0, [], ⟨0⟩, 0, ⟨some repo0⟩, ⟨0⟩, 0⟩

/-- A concrete panel state without an active repository. -/
def sNone0 : ProjectDiff :=
  ⟨mb0, [], ⟨0⟩, 0, ⟨none⟩, ⟨0⟩, 0⟩

/-- A load task that fails under `env0`. -/
def tFail : LoadTask := ⟨pp2⟩

/-- A workspace holding one non-`ProjectDiff` item. -/
def w0 : Workspace := ⟨[⟨5, false⟩], none⟩

end ProjectDiffModel

namespace SvgModel

/-- A device-pixel size. -/
structure Size where
  width : Nat
  height : Nat
deriving DecidableEq, Repr

/-- Modelled from the spec: the `IsZero` implementation for `Size` lives in the
geometry module outside this slice; a size counts as zero when either dimension
is zero. -/
def Size.is_zero (s : Size) : Bool :=
  s.width == 0 || s.height == 0

/-- `RenderSvgParams`: the asset path and the requested size. -/
structure RenderSvgParams where
  path : String
  size : Size
deriving DecidableEq, Repr

/-- A pixmap: its dimensions and the alpha value of each pixel. -/
structure Pixmap where
  width : Nat
  height : Nat
  alphas : List Nat
deriving DecidableEq, Repr

/-- Modelled from the spec: `tiny_skia::Pixmap::new` is an external library call;
it fails exactly when a dimension is zero, and otherwise yields a blank pixmap of
the requested dimensions. -/
def Pixmap.new (width height : Nat) : Option Pixmap :=
  if width == 0 || height == 0 then none
  else some ⟨width, height, List.replicate (width * height) 0⟩

/-- The external collaborators of `SvgRenderer::render`: the asset source's
`load`, `usvg::Tree::from_data` (the tree abstracted to an id), and
`resvg::render` filling a pixmap from a tree. -/
structure SvgEnv where
  load : String → Except String (List Nat)
  tree_from_data : List Nat → Except String Nat
  resvg_render : Nat → Pixmap → Pixmap

/-- The possible outcomes of a call to `render`: a value, an error return, or a
panic (the `unwrap` on the pixmap firing). -/
inductive RenderOutcome where
  | ok (alpha_mask : List Nat)
  | err (msg : String)
  | panic
deriving DecidableEq, Repr

/-- `SvgRenderer::render`: reject zero sizes, load the asset, parse the tree,
build the pixmap (panicking if `Pixmap::new` fails, as the source unwraps),
render into it and return the alpha mask of its pixels. -/
def SvgRenderer.render (env : SvgEnv) (params : RenderSvgParams) : RenderOutcome :=
  if params.size.is_zero then .err "cannot render at a zero size"
  else
    match env.load params.path with
    | .error e => .err e
    | .ok bytes =>
      match env.tree_from_data bytes with
      | .error e => .err e
      | .ok tree =>
        match Pixmap.new params.size.width params.size.height with
        | none => .panic
        | some pixmap => .ok (env.resvg_render tree pixmap).alphas

/-- A request with a zero width. -/
def zeroParams : RenderSvgParams := ⟨"icon.svg", ⟨0, 5⟩⟩

/-- A concrete asset environment. -/
def envA : SvgEnv where
  load := fun _ => .ok []
  tree_from_data := fun _ => .ok 0
  resvg_render := fun _ p => p

/-- A second asset environment, disagreeing with `envA` on every asset. -/
def envB : SvgEnv where
  load := fun _ => .error "asset missing"
  tree_from_data := fun _ => .error "bad svg"
  resvg_render := fun _ p => p

end SvgModel

namespace ProjectDiffModel

theorem anchor_le_max (a : Anchor) : Anchor.le a Anchor.max = true := by
  cases a <;> rfl

theorem anchor_min_le (a : Anchor) : Anchor.le Anchor.min a = true := by
  cases a <;> rfl

theorem diff_hunks_full_range (cs : BufferChangeSet) :
    cs.diff_hunks_intersecting_range (Anchor.min, Anchor.max) = cs.hunks := by
  unfold BufferChangeSet.diff_hunks_intersecting_range
  apply List.filter_eq_self.mpr
  intro h _
  simp [rangesIntersect, anchor_le_max, anchor_min_le]

theorem find?_set_excerpts (l : List (Buffer × Excerpts)) (b : Buffer)
    (ex : Excerpts) :
    ((l.filter (fun e => e.1 != b)) ++ [(b, ex)]).find? (fun e => e.1 == b)
      = some (b, ex) := by
  induction l with
  | nil => simp [List.find?]
  | cons hd tl ih =>
    by_cases hb : hd.1 = b
    · have h1 : (hd.1 != b) = false := by simp [hb]
      simp only [List.filter_cons, h1, Bool.false_eq_true, if_false]
      exact ih
    · have h1 : (hd.1 != b) = true := by simp [hb]
      have h2 : (hd.1 == b) = false := by simp [hb]
      simp only [List.filter_cons, h1, if_true, List.cons_append, List.find?_cons, h2]
      exact ih

/-- C8: with no active repository, `buffers_to_load` clears the multibuffer and
returns no load tasks, so a worker pass in that state leaves the view empty and
loads nothing. -/
theorem buffers_to_load_no_active_repo (s : ProjectDiff)
    (h : s.git_state.active_repository = none) :
    s.buffers_to_load = ({ s with multibuffer := s.multibuffer.clear }, []) := by
  unfold ProjectDiff.buffers_to_load
  rw [h]

theorem buffers_to_load_no_active_repo_witness :
    sNone0.git_state.active_repository = none ∧
    sNone0.buffers_to_load = ({ sNone0 with multibuffer := sNone0.multibuffer.clear }, []) :=
  ⟨rfl, buffers_to_load_no_active_repo sNone0 rfl⟩

/-- C4: `register_buffer` sets the buffer's excerpts in the multibuffer to exactly
the buffer ranges of the unstaged-diff hunks of its change set that intersect the
full range `Anchor::MIN..Anchor::MAX` — which is every hunk — expanded by the
default multibuffer context. -/
theorem register_buffer_sets_hunk_excerpts (s : ProjectDiff) (db : DiffBuffer) :
    (s.register_buffer db).multibuffer.excerpts_for db.buffer
      = some ⟨db.change_set.hunks.map (·.buffer_range), DEFAULT_MULTIBUFFER_CONTEXT⟩ := by
  unfold ProjectDiff.register_buffer MultiBuffer.excerpts_for
    MultiBuffer.set_excerpts_for_buffer
  simp only [diff_hunks_full_range]
  rw [find?_set_excerpts]
  rfl

/-- C5: on every `RepositoriesUpdated` event the subscription handler installed by
the constructor writes to the `update_needed` watch channel, moving its version
past anything the worker has already seen, so the worker observes a new signal;
and the constructor performs one kick-off write on the fresh channel, so the
worker observes a first signal without any repository event. -/
theorem subscription_signals_worker :
    (∀ (e : GitEvent) (c : WatchChannel) (seen : Nat), seen ≤ c.version →
      worker_observes seen (git_state_subscription_handler e c) = true)
    ∧ worker_observes initial_channel.version new_update_needed = true := by
  constructor
  · intro e c seen h
    cases e
    simp only [git_state_subscription_handler, WatchChannel.send, worker_observes,
      decide_eq_true_eq]
    omega
  · decide

theorem subscription_signals_worker_witness :
    3 ≤ (⟨3⟩ : WatchChannel).version ∧
    worker_observes 3 (git_state_subscription_handler GitEvent.RepositoriesUpdated ⟨3⟩) = true :=
  ⟨by decide, subscription_signals_worker.1 GitEvent.RepositoriesUpdated ⟨3⟩ 3 (by decide)⟩

/-- C6: in the worker loop a load task that resolves to an error is skipped
without being registered and does not prevent the remaining tasks of the pass
from being processed; the worker only returns an error when updating the panel
entity fails (the entity was dropped), and otherwise a pass completes normally. -/
theorem worker_skips_failed_loads (env : ProjectEnv) (s : ProjectDiff)
    (l1 l2 : List LoadTask) (t : LoadTask) (e : String)
    (hfail : t.run env = .error e) :
    ProjectDiff.run_tasks env s (l1 ++ t :: l2) = ProjectDiff.run_tasks env s (l1 ++ l2)
    ∧ (∀ st : ProjectDiff, ProjectDiff.worker_pass env true st = .ok (st.run_pass env))
    ∧ (∀ st : ProjectDiff, ProjectDiff.worker_pass env false st = .error "entity released") := by
  refine ⟨?_, fun st => rfl, fun st => rfl⟩
  unfold ProjectDiff.run_tasks
  simp only [List.foldl_append, List.foldl_cons]
  rw [hfail]

theorem worker_skips_failed_loads_witness :
    tFail.run env0 = .error "no such file" ∧
    ProjectDiff.run_tasks env0 sDiff0 ([] ++ tFail :: [⟨pp1⟩]) =
      ProjectDiff.run_tasks env0 sDiff0 ([] ++ [⟨pp1⟩]) :=
  ⟨rfl,
    (worker_skips_failed_loads env0 sDiff0 [] [⟨pp1⟩] tFail "no such file" rfl).1⟩

/-- C7: the `Item` methods are passive glue: `is_dirty` and `has_conflict` are
the multibuffer's flags, `tab_tooltip_text` and `tab_content` are fixed labels,
`breadcrumbs` delegates to the editor, and the operations `deactivated`,
`navigate`, `save` and `reload` delegate to the editor and leave the `project`,
`git_state`, `buffers_to_show`, `update_needed` and subscription fields (and the
multibuffer) of the panel state unchanged. -/
theorem item_impl_is_passive_glue :
    (∀ s, ProjectDiff.is_dirty s = s.multibuffer.dirty)
    ∧ (∀ s, ProjectDiff.has_conflict s = s.multibuffer.conflict)
    ∧ (∀ s, ProjectDiff.tab_tooltip_text s = some "Project Diff")
    ∧ (∀ s selected, ProjectDiff.tab_content s selected
        = ("No changes", if selected then LabelColor.default else LabelColor.muted))
    ∧ (∀ ops theme s, ProjectDiff.breadcrumbs ops theme s = ops.breadcrumbs theme s.editor)
    ∧ (∀ ops s, preserves_panel_fields s (ProjectDiff.deactivated ops s)
        ∧ (ProjectDiff.deactivated ops s).editor = ops.deactivated s.editor)
    ∧ (∀ ops data s, preserves_panel_fields s (ProjectDiff.navigate ops data s).1
        ∧ (ProjectDiff.navigate ops data s).2 = (ops.navigate data s.editor).2
        ∧ (ProjectDiff.navigate ops data s).1.editor = (ops.navigate data s.editor).1)
    ∧ (∀ ops format project s, preserves_panel_fields s (ProjectDiff.save ops format project s).1
        ∧ (ProjectDiff.save ops format project s).2 = (ops.save format project s.editor).2
        ∧ (ProjectDiff.save ops format project s).1.editor = (ops.save format project s.editor).1)
    ∧ (∀ ops project s, preserves_panel_fields s (ProjectDiff.reload ops project s).1
        ∧ (ProjectDiff.reload ops project s).2 = (ops.reload project s.editor).2
        ∧ (ProjectDiff.reload ops project s).1.editor = (ops.reload project s.editor).1) :=
  ⟨fun _ => rfl, fun _ => rfl, fun _ => rfl, fun _ _ => rfl, fun _ _ _ => rfl,
    fun _ _ => ⟨⟨rfl, rfl, rfl, rfl, rfl, rfl⟩, rfl⟩,
    fun _ _ _ => ⟨⟨rfl, rfl, rfl, rfl, rfl, rfl⟩, rfl, rfl⟩,
    fun _ _ _ _ => ⟨⟨rfl, rfl, rfl, rfl, rfl, rfl⟩, rfl, rfl⟩,
    fun _ _ _ => ⟨⟨rfl, rfl, rfl, rfl, rfl, rfl⟩, rfl, rfl⟩⟩

/-- C9: `deploy` is idempotent with respect to item creation: when a
`ProjectDiff` item exists it is only activated and the item list is unchanged;
when none exists exactly one new panel is appended; hence the `ProjectDiff` item
count after a deploy is the old count capped below at one, and a second deploy
never changes the item list again. -/
theorem deploy_is_idempotent :
    (∀ (w : Workspace) (f : Nat) (it : WsItem), w.item_of_type_project_diff = some it →
        (w.deploy f).items = w.items ∧ (w.deploy f).active_item = some it.id)
    ∧ (∀ (w : Workspace) (f : Nat), w.item_of_type_project_diff = none →
        (w.deploy f).items = w.items ++ [⟨f, true⟩])
    ∧ (∀ (w : Workspace) (f : Nat),
        (w.deploy f).project_diff_count = max w.project_diff_count 1)
    ∧ (∀ (w : Workspace) (f g : Nat),
        ((w.deploy f).deploy g).items = (w.deploy f).items) := by
  have hsome : ∀ (w : Workspace) (f : Nat) (it : WsItem),
      w.item_of_type_project_diff = some it →
      (w.deploy f).items = w.items ∧ (w.deploy f).active_item = some it.id := by
    intro w f it h
    simp [Workspace.deploy, h, Workspace.activate_item]
  have hnone : ∀ (w : Workspace) (f : Nat), w.item_of_type_project_diff = none →
      (w.deploy f).items = w.items ++ [⟨f, true⟩] := by
    intro w f h
    simp [Workspace.deploy, h, Workspace.add_item_to_active_pane]
  refine ⟨hsome, hnone, ?_, ?_⟩
  · intro w f
    cases h : w.item_of_type_project_diff with
    | some it =>
      have hitems := (hsome w f it h).1
      have hmem : it ∈ w.items := List.mem_of_find?_eq_some h
      have hpred : it.is_project_diff = true := List.find?_some h
      have hpos : 0 < w.project_diff_count :=
        List.length_pos_of_mem (List.mem_filter.mpr ⟨hmem, hpred⟩)
      have hcount : (w.deploy f).project_diff_count = w.project_diff_count := by
        unfold Workspace.project_diff_count
        rw [hitems]
      rw [hcount]
      omega
    | none =>
      have hall := List.find?_eq_none.mp h
      have hzero : w.items.filter (·.is_project_diff) = [] :=
        List.filter_eq_nil_iff.mpr hall
      have hitems := hnone w f h
      unfold Workspace.project_diff_count
      rw [hitems, List.filter_append, hzero]
      simp
  · intro w f g
    cases h : (w.deploy f).item_of_type_project_diff with
    | some it =>
      exact (hsome (w.deploy f) g it h).1
    | none =>
      exfalso
      have hall := List.find?_eq_none.mp h
      cases h0 : w.item_of_type_project_diff with
      | some it0 =>
        have hmem : it0 ∈ (w.deploy f).items := by
          rw [(hsome w f it0 h0).1]
          exact List.mem_of_find?_eq_some h0
        exact hall it0 hmem (List.find?_some h0)
      | none =>
        have hmem : (⟨f, true⟩ : WsItem) ∈ (w.deploy f).items := by
          rw [hnone w f h0]
          exact List.mem_append_right _ (List.mem_singleton.mpr rfl)
        exact hall ⟨f, true⟩ hmem rfl

theorem deploy_is_idempotent_witness :
    w0.item_of_type_project_diff = none ∧
    (w0.deploy 7).items = w0.items ++ [⟨7, true⟩] :=
  ⟨rfl, deploy_is_idempotent.2.1 w0 7 rfl⟩

theorem load_step_eq (repo : Repository)
    (acc : List (ProjectPath × Buffer) × List LoadTask) (e : StatusEntry) :
    load_step repo acc e
      = match entry_path repo e with
        | none => acc
        | some pp => (assocErase acc.1 pp, acc.2 ++ [⟨pp⟩]) := by
  unfold load_step entry_path
  cases h : e.status.has_changes with
  | false => simp
  | true => simp

theorem foldl_load_step_snd (repo : Repository) (l : List StatusEntry) :
    ∀ (lb : List (ProjectPath × Buffer)) (res : List LoadTask),
      (l.foldl (load_step repo) (lb, res)).2
        = res ++ (l.filterMap (entry_path repo)).map (fun pp => (⟨pp⟩ : LoadTask)) := by
  induction l with
  | nil => intro lb res; simp
  | cons e l ih =>
    intro lb res
    simp only [List.foldl_cons, load_step_eq, List.filterMap_cons]
    cases h : entry_path repo e with
    | none =>
      simp only [h]
      exact ih lb res
    | some pp =>
      simp only [h]
      rw [ih]
      simp

theorem foldl_load_step_fst (repo : Repository) (l : List StatusEntry) :
    ∀ (lb : List (ProjectPath × Buffer)) (res : List LoadTask),
      (l.foldl (load_step repo) (lb, res)).1
        = lb.filter (fun x => !decide (x.1 ∈ l.filterMap (entry_path repo))) := by
  induction l with
  | nil => intro lb res; simp
  | cons e l ih =>
    intro lb res
    cases h : entry_path repo e with
    | none =>
      simp only [List.foldl_cons, load_step_eq, h, List.filterMap_cons]
      exact ih lb res
    | some pp =>
      simp only [List.foldl_cons, load_step_eq, h, List.filterMap_cons]
      rw [ih]
      unfold assocErase
      rw [List.filter_filter]
      apply List.filter_congr
      intro x _
      by_cases hx : x.1 = pp <;> by_cases hm : x.1 ∈ l.filterMap (entry_path repo) <;>
        simp [hx, hm]

theorem buildLoadedBuffers_aux (bs : List Buffer) :
    ∀ acc : List (ProjectPath × Buffer),
      ((acc.map Prod.fst ++ bs.filterMap Buffer.file).Nodup) →
      bs.foldl
          (fun acc buffer =>
            match buffer.file with
            | none => acc
            | some pp => acc.filter (fun e => e.1 != pp) ++ [(pp, buffer)])
          acc
        = acc ++ bs.filterMap (fun b => (Buffer.file b).map (fun pp => (pp, b))) := by
  induction bs with
  | nil => intro acc _; simp
  | cons b bs ih =>
    intro acc hnodup
    simp only [List.foldl_cons, List.filterMap_cons]
    cases hf : b.file with
    | none =>
      simp only [hf, Option.map_none]
      apply ih acc
      rw [List.filterMap_cons, hf] at hnodup
      exact hnodup
    | some pp =>
      simp only [hf, Option.map_some]
      rw [List.filterMap_cons, hf] at hnodup
      have hnotin : pp ∉ acc.map Prod.fst := by
        intro hmem
        rcases List.nodup_append.mp hnodup with ⟨_, _, hdisj⟩
        exact hdisj hmem (List.mem_cons_self pp _)
      have hfilter : acc.filter (fun e => e.1 != pp) = acc := by
        apply List.filter_eq_self.mpr
        intro x hx
        have hx1 : x.1 ∈ acc.map Prod.fst := List.mem_map_of_mem Prod.fst hx
        simp only [bne_iff_ne, ne_eq]
        intro hxe
        exact hnotin (hxe ▸ hx1)
      rw [hfilter]
      have hnodup' : ((acc ++ [(pp, b)]).map Prod.fst ++ bs.filterMap Buffer.file).Nodup := by
        simpa [List.map_append, List.append_assoc] using hnodup
      rw [ih (acc ++ [(pp, b)]) hnodup']
      simp

theorem buildLoadedBuffers_eq (bs : List Buffer)
    (h : (bs.filterMap Buffer.file).Nodup) :
    buildLoadedBuffers bs
      = bs.filterMap (fun b => (Buffer.file b).map (fun pp => (pp, b))) := by
  have haux := buildLoadedBuffers_aux bs [] (by simpa using h)
  simpa [buildLoadedBuffers] using haux

theorem mem_buildLoadedBuffers (bs : List Buffer) (pp : ProjectPath) (b : Buffer)
    (h : (bs.filterMap Buffer.file).Nodup) :
    (pp, b) ∈ buildLoadedBuffers bs ↔ b ∈ bs ∧ b.file = some pp := by
  rw [buildLoadedBuffers_eq bs h]
  simp only [List.mem_filterMap]
  constructor
  · rintro ⟨c, hc, hcf⟩
    rcases Option.map_eq_some'.mp hcf with ⟨q, hq, hpair⟩
    simp only [Prod.mk.injEq] at hpair
    obtain ⟨rfl, rfl⟩ := hpair
    exact ⟨hc, hq⟩
  · rintro ⟨hb, hf⟩
    exact ⟨b, hb, by simp [hf]⟩

theorem remove_fold_excerpts (r : List (ProjectPath × Buffer)) :
    ∀ mb : MultiBuffer,
      (r.foldl (fun mb e => mb.remove_excerpts_for_buffer e.2) mb).excerpts
        = mb.excerpts.filter (fun x => r.all (fun e => x.1 != e.2)) := by
  induction r with
  | nil => intro mb; simp
  | cons e r ih =>
    intro mb
    rw [List.foldl_cons, ih]
    simp only [MultiBuffer.remove_excerpts_for_buffer]
    rw [List.filter_filter]
    apply List.filter_congr
    intro x _
    simp [List.all_cons, Bool.and_comm]

theorem buffers_to_load_excerpts (s : ProjectDiff) (repo : Repository)
    (h : s.git_state.active_repository = some repo) :
    (s.buffers_to_load).1.multibuffer.excerpts
      = s.multibuffer.excerpts.filter (fun x =>
          ((buildLoadedBuffers s.multibuffer.all_buffers).filter
              (fun y => !decide (y.1 ∈ repo.changed_paths))).all
            (fun e => x.1 != e.2)) := by
  simp only [ProjectDiff.buffers_to_load, h]
  rw [remove_fold_excerpts, foldl_load_step_fst]
  rfl

theorem buffers_to_load_tasks (s : ProjectDiff) (repo : Repository)
    (h : s.git_state.active_repository = some repo) :
    (s.buffers_to_load).2 = (repo.changed_paths).map (fun pp => (⟨pp⟩ : LoadTask)) := by
  simp only [ProjectDiff.buffers_to_load, h]
  rw [foldl_load_step_snd]
  rfl

theorem mem_shown_paths (mb : MultiBuffer) (pp : ProjectPath) :
    pp ∈ mb.shown_paths ↔ ∃ x ∈ mb.excerpts, x.1.file = some pp := by
  simp only [MultiBuffer.shown_paths, MultiBuffer.all_buffers, List.mem_filterMap,
    List.mem_map]
  constructor
  · rintro ⟨b, ⟨x, hx, rfl⟩, hf⟩
    exact ⟨x, hx, hf⟩
  · rintro ⟨x, hx, hf⟩
    exact ⟨x.1, ⟨x, hx, rfl⟩, hf⟩

theorem evicted_buffer_not_shown (s : ProjectDiff) (repo : Repository)
    (hrepo : s.git_state.active_repository = some repo)
    (hnodup : (s.multibuffer.all_buffers.filterMap Buffer.file).Nodup)
    (b : Buffer) (pp : ProjectPath)
    (hb : b ∈ s.multibuffer.all_buffers) (hfile : b.file = some pp)
    (hnc : pp ∉ repo.changed_paths) :
    b ∉ (s.buffers_to_load).1.multibuffer.all_buffers := by
  intro hcontra
  simp only [MultiBuffer.all_buffers] at hcontra
  obtain ⟨x, hx, hxb⟩ := List.mem_map.mp hcontra
  rw [buffers_to_load_excerpts s repo hrepo] at hx
  have hall := (List.mem_filter.mp hx).2
  have hL : (pp, b) ∈ buildLoadedBuffers s.multibuffer.all_buffers :=
    (mem_buildLoadedBuffers _ _ _ hnodup).mpr ⟨hb, hfile⟩
  have hR : (pp, b) ∈ (buildLoadedBuffers s.multibuffer.all_buffers).filter
      (fun y => !decide (y.1 ∈ repo.changed_paths)) :=
    List.mem_filter.mpr ⟨hL, by simp [hnc]⟩
  have hne := List.all_eq_true.mp hall _ hR
  rw [hxb] at hne
  simp at hne

theorem changed_buffer_kept (s : ProjectDiff) (repo : Repository)
    (hrepo : s.git_state.active_repository = some repo)
    (hnodup : (s.multibuffer.all_buffers.filterMap Buffer.file).Nodup)
    (b : Buffer) (pp : ProjectPath)
    (hb : b ∈ s.multibuffer.all_buffers) (hfile : b.file = some pp)
    (hc : pp ∈ repo.changed_paths) :
    b ∈ (s.buffers_to_load).1.multibuffer.all_buffers := by
  simp only [MultiBuffer.all_buffers] at hb ⊢
  obtain ⟨x, hx, hxb⟩ := List.mem_map.mp hb
  refine List.mem_map.mpr ⟨x, ?_, hxb⟩
  rw [buffers_to_load_excerpts s repo hrepo]
  refine List.mem_filter.mpr ⟨hx, ?_⟩
  rw [List.all_eq_true]
  rintro ⟨q, c⟩ hqc
  have hqcL := (List.mem_filter.mp hqc).1
  have hqnot : q ∉ repo.changed_paths := by
    have hdec := (List.mem_filter.mp hqc).2
    simpa using hdec
  have hcprops := (mem_buildLoadedBuffers _ q c hnodup).mp hqcL
  rw [hxb]
  simp only [bne_iff_ne, ne_eq]
  intro hbc
  rw [← hbc] at hcprops
  rw [hfile] at hcprops
  have : pp = q := by
    have := hcprops.2
    exact Option.some.injEq .. ▸ (Option.some_injective _ this.symm).symm
  exact hqnot (this ▸ hc)

theorem shown_after_load_sub_changed (s : ProjectDiff) (repo : Repository)
    (hrepo : s.git_state.active_repository = some repo)
    (hnodup : (s.multibuffer.all_buffers.filterMap Buffer.file).Nodup) :
    ∀ pp, pp ∈ (s.buffers_to_load).1.multibuffer.shown_paths →
      pp ∈ repo.changed_paths := by
  intro pp hpp
  rw [mem_shown_paths] at hpp
  obtain ⟨x, hx, hxf⟩ := hpp
  rw [buffers_to_load_excerpts s repo hrepo] at hx
  rcases List.mem_filter.mp hx with ⟨hxexc, hall⟩
  by_contra hnc
  have hbmem : x.1 ∈ s.multibuffer.all_buffers := List.mem_map_of_mem _ hxexc
  have hL : (pp, x.1) ∈ buildLoadedBuffers s.multibuffer.all_buffers :=
    (mem_buildLoadedBuffers _ _ _ hnodup).mpr ⟨hbmem, hxf⟩
  have hR : (pp, x.1) ∈ (buildLoadedBuffers s.multibuffer.all_buffers).filter
      (fun y => !decide (y.1 ∈ repo.changed_paths)) :=
    List.mem_filter.mpr ⟨hL, by simp [hnc]⟩
  have hne := List.all_eq_true.mp hall _ hR
  simp at hne

/-- C2: for every status entry of the active repository, `buffers_to_load`
schedules exactly one buffer-load task when the entry's status has changes and
its repo path maps to a project path, and no task otherwise: the scheduled
tasks' paths are exactly the filter-map of the status list. -/
theorem buffers_to_load_schedules_changed_entries (s : ProjectDiff)
    (repo : Repository) (h : s.git_state.active_repository = some repo) :
    (s.buffers_to_load).2.map LoadTask.project_path
      = repo.status.filterMap (fun e =>
          if e.status.has_changes then repo.repo_path_to_project_path e.repo_path
          else none) := by
  rw [buffers_to_load_tasks s repo h]
  simp only [List.map_map]
  have hcomp : (LoadTask.project_path ∘ fun pp => (⟨pp⟩ : LoadTask)) = id := rfl
  rw [hcomp, List.map_id]
  rfl

theorem buffers_to_load_schedules_changed_entries_witness :
    sDiff0.git_state.active_repository = some repo0 ∧
    (sDiff0.buffers_to_load).2.map LoadTask.project_path
      = repo0.status.filterMap (fun e =>
          if e.status.has_changes then repo0.repo_path_to_project_path e.repo_path
          else none) :=
  ⟨rfl, buffers_to_load_schedules_changed_entries sDiff0 repo0 rfl⟩

/-- C3: a buffer shown in the multibuffer whose project path does not occur
among the changed-and-mapped status entries has its excerpts removed by
`buffers_to_load`; a shown buffer whose path does occur is not evicted. -/
theorem buffers_to_load_evicts_unchanged (s : ProjectDiff) (repo : Repository)
    (b : Buffer) (pp : ProjectPath)
    (hrepo : s.git_state.active_repository = some repo)
    (hnodup : (s.multibuffer.all_buffers.filterMap Buffer.file).Nodup)
    (hb : b ∈ s.multibuffer.all_buffers)
    (hfile : b.file = some pp) :
    (pp ∉ repo.changed_paths → b ∉ (s.buffers_to_load).1.multibuffer.all_buffers)
    ∧ (pp ∈ repo.changed_paths → b ∈ (s.buffers_to_load).1.multibuffer.all_buffers) :=
  ⟨fun hnc => evicted_buffer_not_shown s repo hrepo hnodup b pp hb hfile hnc,
    fun hc => changed_buffer_kept s repo hrepo hnodup b pp hb hfile hc⟩

theorem buffers_to_load_evicts_unchanged_witness :
    (sDiff0.git_state.active_repository = some repo0
      ∧ (sDiff0.multibuffer.all_buffers.filterMap Buffer.file).Nodup
      ∧ buf2 ∈ sDiff0.multibuffer.all_buffers
      ∧ buf2.file = some pp2
      ∧ pp2 ∉ repo0.changed_paths)
    ∧ buf2 ∉ (sDiff0.buffers_to_load).1.multibuffer.all_buffers :=
  ⟨⟨rfl, by decide, by decide, rfl, by decide⟩,
    (buffers_to_load_evicts_unchanged sDiff0 repo0 buf2 pp2 rfl (by decide)
      (by decide) rfl).1 (by decide)⟩

theorem shown_paths_register (st : ProjectDiff) (db : DiffBuffer)
    (pp : ProjectPath) :
    pp ∈ (st.register_buffer db).multibuffer.shown_paths
      ↔ pp ∈ st.multibuffer.shown_paths ∨ db.buffer.file = some pp := by
  rw [mem_shown_paths, mem_shown_paths]
  simp only [ProjectDiff.register_buffer, MultiBuffer.set_excerpts_for_buffer,
    List.mem_append, List.mem_filter, List.mem_singleton]
  constructor
  · rintro ⟨x, hx | hx, hxf⟩
    · exact Or.inl ⟨x, hx.1, hxf⟩
    · subst hx
      exact Or.inr hxf
  · rintro (⟨x, hx, hxf⟩ | hf)
    · by_cases hxb : x.1 = db.buffer
      · refine ⟨(db.buffer, ⟨_, DEFAULT_MULTIBUFFER_CONTEXT⟩), Or.inr rfl, ?_⟩
        rw [← hxb]
        exact hxf
      · exact ⟨x, Or.inl ⟨hx, by simp [hxb]⟩, hxf⟩
    · exact ⟨(db.buffer, ⟨_, DEFAULT_MULTIBUFFER_CONTEXT⟩), Or.inr rfl, hf⟩

theorem run_tasks_shown (env : ProjectEnv) (tasks : List LoadTask) :
    ∀ st : ProjectDiff,
      (∀ t ∈ tasks, ∃ db, t.run env = Except.ok db
        ∧ db.buffer.file = some t.project_path) →
      ∀ pp, pp ∈ (ProjectDiff.run_tasks env st tasks).multibuffer.shown_paths
        ↔ pp ∈ st.multibuffer.shown_paths ∨ pp ∈ tasks.map LoadTask.project_path := by
  induction tasks with
  | nil => intro st _ pp; simp [ProjectDiff.run_tasks]
  | cons t ts ih =>
    intro st hok pp
    obtain ⟨db, hdb, hdbf⟩ := hok t (List.mem_cons_self t ts)
    have hstep : ProjectDiff.run_tasks env st (t :: ts)
        = ProjectDiff.run_tasks env (st.register_buffer db) ts := by
      unfold ProjectDiff.run_tasks
      simp only [List.foldl_cons, hdb]
    rw [hstep,
      ih (st.register_buffer db) (fun t' ht' => hok t' (List.mem_cons_of_mem t ht')) pp,
      shown_paths_register]
    simp only [hdbf, Option.some.injEq, List.map_cons, List.mem_cons]
    constructor
    · rintro ((h | h) | h)
      · exact Or.inl h
      · exact Or.inr (Or.inl h.symm)
      · exact Or.inr (Or.inr h)
    · rintro (h | h | h)
      · exact Or.inl (Or.inl h)
      · exact Or.inl (Or.inr h.symm)
      · exact Or.inr h

theorem mem_all_buffers_register (st : ProjectDiff) (db : DiffBuffer) (b : Buffer)
    (h : b ∈ (st.register_buffer db).multibuffer.all_buffers) :
    b ∈ st.multibuffer.all_buffers ∨ b = db.buffer := by
  simp only [ProjectDiff.register_buffer, MultiBuffer.set_excerpts_for_buffer,
    MultiBuffer.all_buffers, List.map_append, List.mem_append] at h
  rcases h with h | h
  · obtain ⟨x, hx, hxb⟩ := List.mem_map.mp h
    exact Or.inl (List.mem_map.mpr ⟨x, (List.mem_filter.mp hx).1, hxb⟩)
  · simp only [List.map_cons, List.map_nil, List.mem_singleton] at h
    exact Or.inr h

theorem mem_all_buffers_run_tasks (env : ProjectEnv) (tasks : List LoadTask) :
    ∀ (st : ProjectDiff) (b : Buffer),
      b ∈ (ProjectDiff.run_tasks env st tasks).multibuffer.all_buffers →
      b ∈ st.multibuffer.all_buffers
        ∨ ∃ t ∈ tasks, ∃ db, t.run env = Except.ok db ∧ db.buffer = b := by
  induction tasks with
  | nil =>
    intro st b hb
    exact Or.inl (by simpa [ProjectDiff.run_tasks] using hb)
  | cons t ts ih =>
    intro st b hb
    cases hrun : t.run env with
    | error e =>
      have hstep : ProjectDiff.run_tasks env st (t :: ts)
          = ProjectDiff.run_tasks env st ts := by
        unfold ProjectDiff.run_tasks
        simp only [List.foldl_cons, hrun]
      rw [hstep] at hb
      rcases ih st b hb with h | ⟨t', ht', hdb⟩
      · exact Or.inl h
      · exact Or.inr ⟨t', List.mem_cons_of_mem t ht', hdb⟩
    | ok db =>
      have hstep : ProjectDiff.run_tasks env st (t :: ts)
          = ProjectDiff.run_tasks env (st.register_buffer db) ts := by
        unfold ProjectDiff.run_tasks
        simp only [List.foldl_cons, hrun]
      rw [hstep] at hb
      rcases ih (st.register_buffer db) b hb with h | ⟨t', ht', hdb⟩
      · rcases mem_all_buffers_register st db b h with h' | h'
        · exact Or.inl h'
        · exact Or.inr ⟨t, List.mem_cons_self t ts, db, hrun, h'.symm⟩
      · exact Or.inr ⟨t', List.mem_cons_of_mem t ht', hdb⟩

/-- C1: after a complete update pass of the worker (a `buffers_to_load` call
followed by awaiting and registering each returned load task, all of which
succeed and deliver a buffer carrying the requested path), the shown paths are
exactly the changed-and-mapped paths of the active repository: every such path
has a registered buffer, every buffer shown afterwards carries such a path, and
every previously shown buffer whose path left the set has been removed. -/
theorem worker_pass_shows_exactly_changed (env : ProjectEnv) (s : ProjectDiff)
    (repo : Repository)
    (hrepo : s.git_state.active_repository = some repo)
    (hnodup : (s.multibuffer.all_buffers.filterMap Buffer.file).Nodup)
    (hfiles : ∀ b ∈ s.multibuffer.all_buffers, b.file ≠ none)
    (henv : ∀ pp ∈ repo.changed_paths,
        ∃ db, LoadTask.run ⟨pp⟩ env = Except.ok db ∧ db.buffer.file = some pp) :
    (∀ pp, pp ∈ (s.run_pass env).multibuffer.shown_paths ↔ pp ∈ repo.changed_paths)
    ∧ (∀ b pp, b ∈ s.multibuffer.all_buffers → b.file = some pp →
        pp ∉ repo.changed_paths → b ∉ (s.run_pass env).multibuffer.all_buffers)
    ∧ (∀ b, b ∈ (s.run_pass env).multibuffer.all_buffers →
        ∃ pp, b.file = some pp ∧ pp ∈ repo.changed_paths) := by
  have hrp : s.run_pass env
      = ProjectDiff.run_tasks env (s.buffers_to_load).1 (s.buffers_to_load).2 := rfl
  have htasks := buffers_to_load_tasks s repo hrepo
  have hok : ∀ t ∈ (s.buffers_to_load).2,
      ∃ db, t.run env = Except.ok db ∧ db.buffer.file = some t.project_path := by
    intro t ht
    rw [htasks] at ht
    obtain ⟨pp', hpp', rfl⟩ := List.mem_map.mp ht
    exact henv pp' hpp'
  have hmapsnd : (s.buffers_to_load).2.map LoadTask.project_path
      = repo.changed_paths := by
    rw [htasks, List.map_map]
    have hcomp : (LoadTask.project_path ∘ fun pp => (⟨pp⟩ : LoadTask)) = id := rfl
    rw [hcomp, List.map_id]
  refine ⟨?_, ?_, ?_⟩
  · intro pp
    rw [hrp, run_tasks_shown env _ _ hok pp, hmapsnd]
    constructor
    · rintro (h | h)
      · exact shown_after_load_sub_changed s repo hrepo hnodup pp h
      · exact h
    · intro h
      exact Or.inr h
  · intro b pp hb hfile hnc hcontra
    rw [hrp] at hcontra
    rcases mem_all_buffers_run_tasks env _ _ b hcontra with h1 | ⟨t, ht, db, hrun, hdbb⟩
    · exact evicted_buffer_not_shown s repo hrepo hnodup b pp hb hfile hnc h1
    · have htpp : t.project_path ∈ repo.changed_paths := by
        rw [htasks] at ht
        obtain ⟨pp', hpp', rfl⟩ := List.mem_map.mp ht
        exact hpp'
      obtain ⟨db', hrun', hfile'⟩ := henv t.project_path htpp
      have hdd : db = db' := Except.ok.inj (hrun.symm.trans hrun')
      have hbf : b.file = some t.project_path := by
        rw [← hdbb, hdd]
        exact hfile'
      rw [hfile] at hbf
      have hppt : pp = t.project_path := Option.some.inj hbf
      exact hnc (hppt ▸ htpp)
  · intro b hb
    rw [hrp] at hb
    rcases mem_all_buffers_run_tasks env _ _ b hb with h1 | ⟨t, ht, db, hrun, hdbb⟩
    · have hbs : b ∈ s.multibuffer.all_buffers := by
        simp only [MultiBuffer.all_buffers] at h1 ⊢
        obtain ⟨x, hx, hxb⟩ := List.mem_map.mp h1
        rw [buffers_to_load_excerpts s repo hrepo] at hx
        exact List.mem_map.mpr ⟨x, (List.mem_filter.mp hx).1, hxb⟩
      obtain ⟨pp, hpp⟩ : ∃ pp, b.file = some pp := by
        cases hf : b.file with
        | none => exact absurd hf (hfiles b hbs)
        | some q => exact ⟨q, rfl⟩
      refine ⟨pp, hpp, ?_⟩
      by_contra hnc
      exact evicted_buffer_not_shown s repo hrepo hnodup b pp hbs hpp hnc h1
    · have htpp : t.project_path ∈ repo.changed_paths := by
        rw [htasks] at ht
        obtain ⟨pp', hpp', rfl⟩ := List.mem_map.mp ht
        exact hpp'
      obtain ⟨db', hrun', hfile'⟩ := henv t.project_path htpp
      have hdd : db = db' := Except.ok.inj (hrun.symm.trans hrun')
      refine ⟨t.project_path, ?_, htpp⟩
      rw [← hdbb, hdd]
      exact hfile'

theorem worker_pass_shows_exactly_changed_witness :
    (sDiff0.git_state.active_repository = some repo0
      ∧ (sDiff0.multibuffer.all_buffers.filterMap Buffer.file).Nodup
      ∧ (∀ b ∈ sDiff0.multibuffer.all_buffers, b.file ≠ none)
      ∧ (∀ pp ∈ repo0.changed_paths,
          ∃ db, LoadTask.run ⟨pp⟩ env0 = Except.ok db ∧ db.buffer.file = some pp))
    ∧ (pp1 ∈ (sDiff0.run_pass env0).multibuffer.shown_paths
        ↔ pp1 ∈ repo0.changed_paths) := by
  have henv : ∀ pp ∈ repo0.changed_paths,
      ∃ db, LoadTask.run ⟨pp⟩ env0 = Except.ok db ∧ db.buffer.file = some pp := by
    intro pp hpp
    have hch : repo0.changed_paths = [pp1] := by decide
    rw [hch] at hpp
    simp only [List.mem_singleton] at hpp
    subst hpp
    exact ⟨⟨buf1, cs1⟩, rfl, rfl⟩
  exact ⟨⟨rfl, by decide, by decide, henv⟩,
    (worker_pass_shows_exactly_changed env0 sDiff0 repo0 rfl (by decide)
      (by decide) henv).1 pp1⟩

end ProjectDiffModel

namespace SvgModel

/-- C10: `SvgRenderer::render` never panics: a request with a zero dimension is
rejected before the asset source is consulted (the result is the same error for
every environment), and for every request that passes the guard the pixmap
construction succeeds, so the unwrap on `Pixmap::new` never fires. -/
theorem svg_render_never_panics :
    (∀ (env : SvgEnv) (params : RenderSvgParams),
        SvgRenderer.render env params ≠ RenderOutcome.panic)
    ∧ (∀ (env env2 : SvgEnv) (params : RenderSvgParams), params.size.is_zero = true →
        SvgRenderer.render env params = .err "cannot render at a zero size"
        ∧ SvgRenderer.render env params = SvgRenderer.render env2 params) := by
  constructor
  · intro env params
    unfold SvgRenderer.render
    by_cases hz : params.size.is_zero = true
    · simp [hz]
    · have hz' : (params.size.width == 0 || params.size.height == 0) = false := by
        have := Bool.eq_false_iff.mpr hz
        unfold Size.is_zero at this
        exact this
      have hpix : Pixmap.new params.size.width params.size.height
          = some ⟨params.size.width, params.size.height,
              List.replicate (params.size.width * params.size.height) 0⟩ := by
        unfold Pixmap.new
        rw [hz']
        simp
      simp only [hz, Bool.false_eq_true, if_false]
      cases hload : env.load params.path with
      | error e => simp
      | ok bytes =>
        cases htree : env.tree_from_data bytes with
        | error e => simp [htree]
        | ok tree =>
          simp [htree, hpix]
  · intro env env2 params hz
    constructor <;> simp [SvgRenderer.render, hz]

theorem svg_render_never_panics_witness :
    zeroParams.size.is_zero = true ∧
    (SvgRenderer.render envA zeroParams = .err "cannot render at a zero size"
      ∧ SvgRenderer.render envA zeroParams = SvgRenderer.render envB zeroParams) :=
  ⟨rfl, svg_render_never_panics.2 envA envB zeroParams rfl⟩

end SvgModel
